import Mathlib

/-!
Verification of the Discord message-capture client
(`src/docs_social/src/social_capture/discord_client.py`).

The Python source is shallowly embedded below:

* the temporal identifier codec (`DiscordClient._date_to_snowflake`, lines
  59-86, and the inline `before_date` conversion inside
  `get_messages_batch`, lines 271-281) becomes pure functions on strings
  and integers;
* the page fetcher (`DiscordClient.get_messages`, lines 165-234) becomes a
  pure function over an abstract transport (its catch-all exception
  handler maps every transport failure to the empty page);
* the harvester (`DiscordClient.get_messages_batch`, lines 236-340)
  becomes a fuel-indexed loop `batchLoop` together with a wrapper that
  performs the date parsing exactly as the source does;
* the per-message normalization inside `get_messages` (lines 201-227)
  becomes `processMessage` over records of optional raw fields;
* the rate limiter (`DiscordClient.__init__` line 37 and
  `DiscordClient._rate_limit`, lines 88-98) becomes arithmetic over `ℚ`
  (wall-clock seconds).
-/

/-! ### Temporal identifier codec -/

/-- Numeric value of a list of ASCII digit characters (most significant
first), as produced by Python `int` on a digit string. -/
def digitsToNat (cs : List Char) : Nat :=
  cs.foldl (fun acc c => acc * 10 + (c.toNat - 48)) 0

/-- Split a character list on the dash separator, keeping empty groups,
mirroring how `strptime` with format `%Y-%m-%d` carves the input at the
literal dashes. -/
def splitDash (cs : List Char) : List (List Char) :=
  cs.foldr
    (fun c acc =>
      match acc with
      | [] => [[c]]
      | g :: gs => if c = '-' then [] :: g :: gs else (c :: g) :: gs)
    [[]]

/-- Gregorian leap-year test, as used by the Python `datetime` module. -/
def isLeapYear (y : Int) : Bool :=
  (y % 4 == 0 && y % 100 != 0) || y % 400 == 0

/-- Number of days in a month of a given year (Python `datetime`
validation). -/
def daysInMonth (y : Int) (m : Nat) : Nat :=
  if m = 2 then (if isLeapYear y then 29 else 28)
  else if m = 4 ∨ m = 6 ∨ m = 9 ∨ m = 11 then 30
  else 31

/-- Model of `datetime.strptime(s, "%Y-%m-%d")`: exactly three dash-separated
groups; the year is exactly four digits (and the resulting year is at
least 1, since `datetime` rejects year 0); month and day are one or two
digits; the month is 1..12 and the day is valid for the month.  Returns
`none` exactly when `strptime`/`datetime` raises `ValueError`. -/
def parseDate (s : String) : Option (Int × Nat × Nat) :=
  match splitDash s.data with
  | [ys, ms, ds] =>
    if ys.length = 4 ∧ ys.all Char.isDigit
        ∧ (ms.length = 1 ∨ ms.length = 2) ∧ ms.all Char.isDigit
        ∧ (ds.length = 1 ∨ ds.length = 2) ∧ ds.all Char.isDigit then
      let y : Int := (digitsToNat ys : Int)
      let m : Nat := digitsToNat ms
      let d : Nat := digitsToNat ds
      if 1 ≤ y ∧ 1 ≤ m ∧ m ≤ 12 ∧ 1 ≤ d ∧ d ≤ daysInMonth y m then
        some (y, m, d)
      else none
    else none
  | _ => none

/-- Days from 1970-01-01 to the given proleptic-Gregorian date (the
arithmetic `datetime` subtraction performs).  All intermediate dividends
are non-negative for years ≥ 1, so the rounding convention of `/` is
immaterial. -/
def daysFromCivil (y : Int) (m d : Nat) : Int :=
  let y2 : Int := if m ≤ 2 then y - 1 else y
  let era : Int := y2 / 400
  let yoe : Int := y2 - era * 400
  let mp : Int := ((m : Int) + 9) % 12
  let doy : Int := (153 * mp + 2) / 5 + (d : Int) - 1
  let doe : Int := yoe * 365 + yoe / 4 - yoe / 100 + doy
  era * 146097 + doe - 719468

/-- Model of `DiscordClient._date_to_snowflake` (lines 59-86): midnight UTC of the
given date, as milliseconds since the Discord epoch 2015-01-01T00:00:00Z,
shifted left 22 bits; `none` (Python `None`) on a malformed date. -/
def date_to_snowflake (s : String) : Option Int :=
  match parseDate s with
  | none => none
  | some (y, m, d) =>
    some ((daysFromCivil y m d - daysFromCivil 2015 1 1) * 86400000 * 4194304)

/-- The inline `before_date` conversion in `get_messages_batch` (lines
271-281): 23:59:59 UTC of the given date (86399000 ms past midnight),
as milliseconds since the Discord epoch, shifted left 22 bits; `none`
on a malformed date. -/
def date_to_upper_snowflake (s : String) : Option Int :=
  match parseDate s with
  | none => none
  | some (y, m, d) =>
    some (((daysFromCivil y m d - daysFromCivil 2015 1 1) * 86400000
      + 86399000) * 4194304)

/-! ### Rate limiter -/

/-- Model of `DiscordClient.__init__` line 37: the stored delay is
`max(rate_limit_delay, 2.0)`. -/
def init_rate_limit_delay (rate_limit_delay : ℚ) : ℚ :=
  max rate_limit_delay 2

/-- Model of `DiscordClient._rate_limit` (lines 88-98): the sleep performed when
called at wall-clock time `now` with `last_request_time = last`. -/
def rate_limit_sleep (delay last now : ℚ) : ℚ :=
  if now - last < delay then delay - (now - last) else 0

/-- The new `last_request_time` after `_rate_limit` returns (the sleep
advances the clock by exactly the requested duration). -/
def rate_limit_next (delay last now : ℚ) : ℚ :=
  now + rate_limit_sleep delay last now

/-! ### Message normalization (`get_messages`, lines 201-227) -/

/-- Raw author object from the transport: every field may be absent. -/
structure RawAuthor where
  id : Option String
  username : Option String
  discriminator : Option String
  bot : Option Bool
deriving Repr, DecidableEq

/-- Raw attachment object from the transport. -/
structure RawAttachment where
  filename : Option String
  url : Option String
  size : Option Int
deriving Repr, DecidableEq

/-- Raw message object as decoded from the transport JSON: every field
may be absent (Python `msg.get`). Embeds and reactions are kept opaque. -/
structure RawMessage where
  id : Option String
  content : Option String
  timestamp : Option String
  author : Option RawAuthor
  attachments : Option (List RawAttachment)
  embeds : Option (List String)
  reactions : Option (List String)
  edited_timestamp : Option String
deriving Repr, DecidableEq

/-- Author sub-record of a processed message (lines 208-213): `bot`
defaults to `False`, the other fields stay optional (`None` when
absent). -/
structure ProcessedAuthor where
  id : Option String
  username : Option String
  discriminator : Option String
  bot : Bool
deriving Repr, DecidableEq

/-- Attachment sub-record of a processed message (lines 215-219). -/
structure ProcessedAttachment where
  filename : Option String
  url : Option String
  size : Option Int
deriving Repr, DecidableEq

/-- Processed message dictionary built at lines 204-226. -/
structure ProcessedMessage where
  id : Option String
  content : String
  timestamp : Option String
  author : ProcessedAuthor
  attachments : List ProcessedAttachment
  embeds : List String
  reactions : List String
  edited_timestamp : Option String
  channel_id : String
deriving Repr, DecidableEq

/-- The body of the normalization loop (lines 204-226): one raw record
becomes one processed record, with defaults for absent fields; no record
is rejected. -/
def processMessage (channel_id : String) (msg : RawMessage) : ProcessedMessage :=
  let a := msg.author.getD ⟨none, none, none, none⟩
  { id := msg.id
    content := msg.content.getD ""
    timestamp := msg.timestamp
    author :=
      { id := a.id
        username := a.username
        discriminator := a.discriminator
        bot := a.bot.getD false }
    attachments :=
      (msg.attachments.getD []).map (fun att => ⟨att.filename, att.url, att.size⟩)
    embeds := msg.embeds.getD []
    reactions := msg.reactions.getD []
    edited_timestamp := msg.edited_timestamp
    channel_id := channel_id }

/-- The full normalization loop (lines 202-227): every raw record is
processed and appended. -/
def processMessages (channel_id : String) (msgs : List RawMessage) : List ProcessedMessage :=
  msgs.map (processMessage channel_id)

/-! ### Page fetcher and harvester -/

/-- A message as the harvester sees it after normalization: the loop in
`get_messages_batch` consults only `msg["id"]` (an integer snowflake;
the Python strings are compared after `int` conversion), and
`format_messages_markdown` consults only `msg["timestamp"]` (ISO-8601
strings, whose lexicographic order coincides with chronological order,
embedded as an integer). -/
structure Msg where
  id : Int
  timestamp : Int
deriving Repr, DecidableEq

/-- One transport interaction: either a decoded JSON page or a raised
`requests` exception (`AccessDenied`, `NotFound`, timeout, ...). -/
inductive FetchOutcome where
  | page (msgs : List Msg)
  | failure (err : String)
deriving Repr, DecidableEq

/-- Model of `DiscordClient.get_messages` (lines 165-234): clamps the limit to
100, performs one transport request, and — per the catch-all handler at
lines 232-234 — turns ANY transport failure into an empty page instead
of letting the exception escape. -/
def get_messages (transport : Nat → Option Int → Option Int → FetchOutcome)
    (limit : Nat) (before after : Option Int) : List Msg :=
  match transport (min limit 100) before after with
  | .page msgs => msgs
  | .failure _ => []

/-- The `for msg in messages` filter at lines 311-320: scan the page in
order, keep messages with `id ≥ after_snowflake`; the first message
below the bound stops the scan (`.2 = true` records that the loop took
the early-`return` branch). -/
def filterAfter (bound : Int) : List Msg → List Msg × Bool
  | [] => ([], false)
  | m :: rest =>
    if bound ≤ m.id then
      (m :: (filterAfter bound rest).1, (filterAfter bound rest).2)
    else ([], true)

/-- The batch-size computation at lines 286-293: `none` means the
`break` on an exhausted budget; the Python test `if total_limit and
total_limit > 0` treats `None`, `0` and negative budgets alike as "no
budget". -/
def currentBatchSize (total_limit : Option Int) (batch_size : Nat)
    (fetched : Nat) : Option Nat :=
  match total_limit with
  | some t =>
    if 0 < t then
      let remaining : Int := t - (fetched : Int)
      if remaining ≤ 0 then none
      else some (min batch_size remaining.toNat)
    else some batch_size
  | none => some batch_size

/-- Identifier of the last message of a page (`messages[-1]["id"]`,
line 328); only ever used on non-empty pages. -/
def lastId (msgs : List Msg) : Int :=
  ((msgs.getLast?).map Msg.id).getD 0

/-- Outcome of one iteration of the `while True` loop: either the loop
exits with a final result (all `break`s fall through to the common
`return all_messages`, and the two early `return`s at lines 318-320 exit
directly), or it continues with a grown accumulator and a new backward
cursor. -/
inductive LoopStep where
  | done (result : List Msg)
  | next (acc : List Msg) (before_id : Int)
deriving Repr, DecidableEq

/-- One iteration of the loop body of `get_messages_batch`
(lines 285-338): budget check (286-293), first-page-only `after`
parameter (296), page fetch (298-303), empty-page break (305-307),
lower-bound filter with early return (309-320), empty-filter break
(323-325), accumulate and advance the cursor (327-328), and the
partial-batch break (336-338). -/
def batchStep (fetch : Nat → Option Int → Option Int → List Msg)
    (after_snowflake total_limit : Option Int) (batch_size : Nat)
    (acc : List Msg) (before_id : Option Int) : LoopStep :=
  match currentBatchSize total_limit batch_size acc.length with
  | none => .done acc
  | some cbs =>
    let after_param := if acc.isEmpty then after_snowflake else none
    let messages := fetch cbs before_id after_param
    if messages.isEmpty then .done acc
    else
      match after_snowflake with
      | some bound =>
        match filterAfter bound messages with
        | (kept, true) => .done (acc ++ kept)
        | (kept, false) =>
          if kept.isEmpty then .done acc
          else if kept.length < cbs then .done (acc ++ kept)
          else .next (acc ++ kept) (lastId kept)
      | none =>
        if messages.length < cbs then .done (acc ++ messages)
        else .next (acc ++ messages) (lastId messages)

/-- The `while True` loop of `get_messages_batch` (lines 285-338),
indexed by fuel (the loop has no intrinsic termination measure against
an arbitrary transport).  State: the accumulated `all_messages` and the
backward cursor `before_id`. -/
def batchLoop (fetch : Nat → Option Int → Option Int → List Msg)
    (after_snowflake total_limit : Option Int) (batch_size : Nat) :
    Nat → List Msg → Option Int → List Msg
  | 0, acc, _ => acc
  | fuel + 1, acc, before_id =>
    match batchStep fetch after_snowflake total_limit batch_size acc before_id with
    | .done r => r
    | .next acc2 b2 =>
      batchLoop fetch after_snowflake total_limit batch_size fuel acc2 (some b2)

/-- Model of `DiscordClient.get_messages_batch` (lines 236-340): clamp the batch
size to 100, convert `after_date` (returning `[]` on a malformed date,
lines 265-269), convert `before_date` (returning `[]` on a malformed
date, lines 271-281 — note the computed `before_snowflake` is bound but
never consulted afterwards), then run the paging loop.  `after_date`
and `before_date` being `none` covers Python `None` and the falsy empty
string alike. -/
def get_messages_batch (transport : Nat → Option Int → Option Int → FetchOutcome)
    (fuel : Nat) (total_limit : Option Int) (batch_size : Nat)
    (after_date before_date : Option String) : List Msg :=
  let bsz := min batch_size 100
  let after_snowflake : Option (Option Int) :=
    match after_date with
    | none => some none
    | some s => (date_to_snowflake s).map some
  let before_snowflake : Option (Option Int) :=
    match before_date with
    | none => some none
    | some s => (date_to_upper_snowflake s).map some
  match after_snowflake with
  | none => []
  | some asf =>
    match before_snowflake with
    | none => []
    | some _ =>
      batchLoop (get_messages transport) asf total_limit bsz fuel [] none

/-! ### The sort performed by the renderer -/

/-- Timestamp order on messages (the `key=lambda x: x["timestamp"]`
of line 357). -/
def tsLE (a b : Msg) : Prop := a.timestamp ≤ b.timestamp

instance : DecidableRel tsLE :=
  fun a b => inferInstanceAs (Decidable (a.timestamp ≤ b.timestamp))

instance : IsTotal Msg tsLE :=
  ⟨fun a b => Int.le_total a.timestamp b.timestamp⟩

instance : IsTrans Msg tsLE :=
  ⟨fun _ _ _ => Int.le_trans⟩

/-- The `sorted(messages, key=lambda x: x["timestamp"])` call inside
`format_messages_markdown` (line 357), as a stable comparison sort. -/
def format_messages_sort (msgs : List Msg) : List Msg :=
  List.insertionSort tsLE msgs

/-! ### Concrete transports used as test channels -/

/-- A well-behaved channel server: the channel is a list of messages
newest-first; `before`/`after` restrict by identifier and at most
`limit` messages are returned. -/
def channelFetch (channel : List Msg) :
    Nat → Option Int → Option Int → FetchOutcome :=
  fun limit before after =>
    let eligible := channel.filter (fun m =>
      (match before with | some b => decide (m.id < b) | none => true)
      && (match after with | some a => decide (a < m.id) | none => true))
    .page (eligible.take limit)

/-- A channel of `n` messages with identifiers (and timestamps)
`n, n-1, ..., 1`, newest first, as the wire protocol delivers them. -/
def mkChannel (n : Nat) : List Msg :=
  (List.range n).map (fun i => ⟨((n - i : Nat) : Int), ((n - i : Nat) : Int)⟩)

/-- A transport whose every request raises (e.g. HTTP 403
`AccessDenied`). -/
def accessDeniedTransport : Nat → Option Int → Option Int → FetchOutcome :=
  fun _ _ _ => .failure "AccessDenied"

/-- A transport that serves two pages of two messages and then raises on
the third request (identified by its cursor). -/
def flakyTransport : Nat → Option Int → Option Int → FetchOutcome :=
  fun limit before _ =>
    match before with
    | none => .page ([⟨10, 10⟩, ⟨9, 9⟩].take limit)
    | some 9 => .page ([⟨8, 8⟩, ⟨7, 7⟩].take limit)
    | some _ => .failure "AccessDenied"

/-! ### Helper lemmas about the loop -/

theorem filterAfter_fst_eq_takeWhile (bound : Int) (l : List Msg) :
    (filterAfter bound l).1 = l.takeWhile (fun m => decide (bound ≤ m.id)) := by
  induction l with
  | nil => rfl
  | cons m rest ih =>
    by_cases h : bound ≤ m.id
    · simp [filterAfter, h, ih]
    · simp [filterAfter, h]

theorem filterAfter_mem (bound : Int) (l : List Msg) :
    ∀ m ∈ (filterAfter bound l).1, bound ≤ m.id := by
  induction l with
  | nil => intro m hm; simp [filterAfter] at hm
  | cons x rest ih =>
    intro m hm
    by_cases h : bound ≤ x.id
    · simp only [filterAfter, if_pos h, List.mem_cons] at hm
      rcases hm with rfl | hm
      · exact h
      · exact ih m hm
    · simp [filterAfter, h] at hm

theorem filterAfter_length_le (bound : Int) (l : List Msg) :
    (filterAfter bound l).1.length ≤ l.length := by
  induction l with
  | nil => simp [filterAfter]
  | cons x rest ih =>
    by_cases h : bound ≤ x.id
    · simp only [filterAfter, if_pos h, List.length_cons]
      omega
    · simp [filterAfter, h]

/-- The accumulated messages carried by a loop-step outcome. -/
def LoopStep.msgs : LoopStep → List Msg
  | .done r => r
  | .next acc _ => acc

theorem batchStep_lower_bound (fetch : Nat → Option Int → Option Int → List Msg)
    (bound : Int) (tl : Option Int) (bs : Nat)
    (acc : List Msg) (before : Option Int)
    (hacc : ∀ m ∈ acc, bound ≤ m.id) :
    ∀ m ∈ (batchStep fetch (some bound) tl bs acc before).msgs, bound ≤ m.id := by
  intro m hm
  unfold batchStep at hm
  rcases hcb : currentBatchSize tl bs acc.length with _ | cbs
  · rw [hcb] at hm
    exact hacc m hm
  · rw [hcb] at hm
    dsimp only at hm
    by_cases hemp : (fetch cbs before (if acc.isEmpty then some bound else none)).isEmpty
    · rw [if_pos hemp] at hm
      exact hacc m hm
    · rw [if_neg hemp] at hm
      rcases hfa : filterAfter bound
          (fetch cbs before (if acc.isEmpty then some bound else none)) with ⟨kept, tr⟩
      rw [hfa] at hm
      have hkept : ∀ x ∈ kept, bound ≤ x.id := by
        intro x hx
        have hme := filterAfter_mem bound
          (fetch cbs before (if acc.isEmpty then some bound else none)) x
        rw [hfa] at hme
        exact hme hx
      cases tr
      · dsimp only at hm
        by_cases hke : kept.isEmpty
        · rw [if_pos hke] at hm
          exact hacc m hm
        · rw [if_neg hke] at hm
          by_cases hlt : kept.length < cbs
          · rw [if_pos hlt] at hm
            dsimp only [LoopStep.msgs] at hm
            rcases List.mem_append.mp hm with h | h
            · exact hacc m h
            · exact hkept m h
          · rw [if_neg hlt] at hm
            dsimp only [LoopStep.msgs] at hm
            rcases List.mem_append.mp hm with h | h
            · exact hacc m h
            · exact hkept m h
      · dsimp only [LoopStep.msgs] at hm
        rcases List.mem_append.mp hm with h | h
        · exact hacc m h
        · exact hkept m h

theorem batchLoop_lower_bound (fetch : Nat → Option Int → Option Int → List Msg)
    (bound : Int) (tl : Option Int) (bs : Nat) :
    ∀ (fuel : Nat) (acc : List Msg) (before : Option Int),
      (∀ m ∈ acc, bound ≤ m.id) →
      ∀ m ∈ batchLoop fetch (some bound) tl bs fuel acc before, bound ≤ m.id := by
  intro fuel
  induction fuel with
  | zero => exact fun acc before hacc => hacc
  | succ n ih =>
    intro acc before hacc m hm
    simp only [batchLoop] at hm
    have hb := batchStep_lower_bound fetch bound tl bs acc before hacc
    rcases hstep : batchStep fetch (some bound) tl bs acc before with r | ⟨acc2, b2⟩
    · rw [hstep] at hm hb
      exact hb m hm
    · rw [hstep] at hm hb
      exact ih acc2 (some b2) hb m hm

theorem batchStep_length_le (fetch : Nat → Option Int → Option Int → List Msg)
    (hfetch : ∀ l b a, (fetch l b a).length ≤ l)
    (asf : Option Int) (B : Int) (hB : 0 < B) (bs : Nat)
    (acc : List Msg) (before : Option Int) (hacc : (acc.length : Int) ≤ B) :
    ((batchStep fetch asf (some B) bs acc before).msgs.length : Int) ≤ B := by
  unfold batchStep
  rcases hcb : currentBatchSize (some B) bs acc.length with _ | cbs
  · exact hacc
  · have hcbs : (cbs : Int) ≤ B - (acc.length : Int) := by
      simp only [currentBatchSize, if_pos hB] at hcb
      by_cases hrem : B - (acc.length : Int) ≤ 0
      · rw [if_pos hrem] at hcb
        exact absurd hcb (by simp)
      · rw [if_neg hrem] at hcb
        simp only [Option.some.injEq] at hcb
        have h1 : cbs ≤ (B - (acc.length : Int)).toNat := by
          rw [← hcb]
          exact min_le_right _ _
        omega
    dsimp only
    by_cases hemp : (fetch cbs before (if acc.isEmpty then asf else none)).isEmpty
    · rw [if_pos hemp]
      exact hacc
    · rw [if_neg hemp]
      have hpage : (fetch cbs before (if acc.isEmpty then asf else none)).length ≤ cbs :=
        hfetch cbs before _
      rcases asf with _ | bound
      · dsimp only
        by_cases hlt :
            (fetch cbs before (if acc.isEmpty then none else none)).length < cbs
        · rw [if_pos hlt]
          dsimp only [LoopStep.msgs]
          rw [List.length_append]
          push_cast
          omega
        · rw [if_neg hlt]
          dsimp only [LoopStep.msgs]
          rw [List.length_append]
          push_cast
          omega
      · dsimp only
        rcases hfa : filterAfter bound
            (fetch cbs before (if acc.isEmpty then some bound else none)) with ⟨kept, tr⟩
        have hkl : kept.length ≤ cbs := by
          have h1 := filterAfter_length_le bound
            (fetch cbs before (if acc.isEmpty then some bound else none))
          rw [hfa] at h1
          exact le_trans h1 hpage
        cases tr
        · dsimp only
          by_cases hke : kept.isEmpty
          · rw [if_pos hke]
            exact hacc
          · rw [if_neg hke]
            by_cases hlt : kept.length < cbs
            · rw [if_pos hlt]
              dsimp only [LoopStep.msgs]
              rw [List.length_append]
              push_cast
              omega
            · rw [if_neg hlt]
              dsimp only [LoopStep.msgs]
              rw [List.length_append]
              push_cast
              omega
        · dsimp only [LoopStep.msgs]
          rw [List.length_append]
          push_cast
          omega

theorem batchLoop_length_le (fetch : Nat → Option Int → Option Int → List Msg)
    (hfetch : ∀ l b a, (fetch l b a).length ≤ l)
    (asf : Option Int) (B : Int) (hB : 0 < B) (bs : Nat) :
    ∀ (fuel : Nat) (acc : List Msg) (before : Option Int),
      (acc.length : Int) ≤ B →
      ((batchLoop fetch asf (some B) bs fuel acc before).length : Int) ≤ B := by
  intro fuel
  induction fuel with
  | zero => exact fun acc before h => h
  | succ n ih =>
    intro acc before hacc
    simp only [batchLoop]
    have hb := batchStep_length_le fetch hfetch asf B hB bs acc before hacc
    rcases hstep : batchStep fetch asf (some B) bs acc before with r | ⟨acc2, b2⟩
    · rw [hstep] at hb
      exact hb
    · rw [hstep] at hb
      exact ih acc2 (some b2) hb

theorem batchStep_budget_nonpos (fetch : Nat → Option Int → Option Int → List Msg)
    (asf : Option Int) (bs : Nat) (t : Int) (ht : t ≤ 0)
    (acc : List Msg) (before : Option Int) :
    batchStep fetch asf (some t) bs acc before
      = batchStep fetch asf none bs acc before := by
  unfold batchStep
  have hc : currentBatchSize (some t) bs acc.length
      = currentBatchSize none bs acc.length := by
    simp [currentBatchSize, not_lt.mpr ht]
  rw [hc]

theorem batchLoop_budget_nonpos (fetch : Nat → Option Int → Option Int → List Msg)
    (asf : Option Int) (bs : Nat) (t : Int) (ht : t ≤ 0) :
    ∀ (fuel : Nat) (acc : List Msg) (before : Option Int),
      batchLoop fetch asf (some t) bs fuel acc before
        = batchLoop fetch asf none bs fuel acc before := by
  intro fuel
  induction fuel with
  | zero => intro acc before; rfl
  | succ n ih =>
    intro acc before
    simp only [batchLoop, batchStep_budget_nonpos fetch asf bs t ht acc before]
    rcases hstep : batchStep fetch asf none bs acc before with r | ⟨acc2, b2⟩
    · rfl
    · exact ih acc2 (some b2)

/-- The transport honors the page-size parameter: a page produced by
`get_messages` never exceeds the requested limit (the live platform
guarantees this for its `limit` query parameter). -/
def honorsLimit (transport : Nat → Option Int → Option Int → FetchOutcome) : Prop :=
  ∀ (l : Nat) (b a : Option Int), (get_messages transport l b a).length ≤ l

theorem channelFetch_honorsLimit (channel : List Msg) :
    honorsLimit (channelFetch channel) := by
  intro l b a
  simp only [get_messages, channelFetch]
  exact le_trans (List.length_take_le _ _) (min_le_left _ _)

/-! ### Claim C7: lower/upper identifier bounds for the same date -/

/-- Claim C7: For every calendar date accepted by the codec, the lower
bound (`_date_to_snowflake`, midnight UTC) and the upper bound (the
inline 23:59:59 UTC conversion) satisfy `lo ≤ hi`, and their gap is
exactly 86399000 milliseconds shifted left by 22 bits. -/
theorem C7_theorem (s : String) (lo hi : Int)
    (hlo : date_to_snowflake s = some lo)
    (hhi : date_to_upper_snowflake s = some hi) :
    lo ≤ hi ∧ hi - lo = 86399000 * 4194304 := by
  unfold date_to_snowflake at hlo
  unfold date_to_upper_snowflake at hhi
  rcases hp : parseDate s with _ | ⟨y, m, d⟩
  · rw [hp] at hlo
    exact absurd hlo (by simp)
  · rw [hp] at hlo hhi
    simp only [Option.some.injEq] at hlo hhi
    subst hlo
    subst hhi
    have hpos : (0 : Int) < 86399000 * 4194304 := by norm_num
    constructor
    · nlinarith [hpos]
    · ring

/-- Witness for C7 at the concrete date 2023-05-07. -/
theorem C7_witness :
    date_to_snowflake "2023-05-07" = some 1104558214348800000 ∧
    date_to_upper_snowflake "2023-05-07" = some 1104920598020096000 ∧
    (1104558214348800000 : Int) ≤ 1104920598020096000 ∧
    (1104920598020096000 : Int) - 1104558214348800000 = 86399000 * 4194304 := by
  refine ⟨by decide, by decide, ?_, ?_⟩
  · have h := C7_theorem "2023-05-07" 1104558214348800000 1104920598020096000
      (by decide) (by decide)
    exact h.1
  · have h := C7_theorem "2023-05-07" 1104558214348800000 1104920598020096000
      (by decide) (by decide)
    exact h.2

/-! ### Claim C8: effective minimum inter-request spacing -/

/-- Claim C8: The client stores `max(rate_limit_delay, 2.0)` as its delay,
so the spacing between consecutive permitted requests is always at least
`max(d, 2.0)` (hence never below 2.0s however small the configured
delay), and a back-to-back call achieves exactly `max(d, 2.0)`. -/
theorem C8_theorem (d last now : ℚ) :
    init_rate_limit_delay d = max d 2 ∧
    2 ≤ init_rate_limit_delay d ∧
    max d 2 ≤ rate_limit_next (init_rate_limit_delay d) last now - last ∧
    rate_limit_next (init_rate_limit_delay d) last last - last = max d 2 := by
  refine ⟨rfl, le_max_right _ _, ?_, ?_⟩
  · unfold rate_limit_next rate_limit_sleep init_rate_limit_delay
    by_cases h : now - last < max d 2
    · rw [if_pos h]
      ring_nf
      linarith
    · rw [if_neg h]
      push_neg at h
      linarith
  · unfold rate_limit_next rate_limit_sleep init_rate_limit_delay
    have h2 : (0 : ℚ) < 2 := by norm_num
    have hmax := le_max_right d 2
    rw [if_pos (by linarith [sub_self last])]
    ring

/-! ### Claim C1: output order of the harvester -/

/-- A two-message channel, identifiers 2 then 1 (newest first, as the
wire protocol delivers). -/
def chC1 : List Msg := [⟨2, 2⟩, ⟨1, 1⟩]

/-- Claim C1 is false as stated: the harvest of a two-message channel
returns the messages in wire order (newest first), which is NOT
ascending by identifier nor by timestamp — `get_messages_batch`
performs no sort before returning. -/
theorem C1_counterexample :
    get_messages_batch (channelFetch chC1) 5 none 50 none none = [⟨2, 2⟩, ⟨1, 1⟩] ∧
    ¬ List.Sorted (fun a b : Msg => a.id < b.id)
        (get_messages_batch (channelFetch chC1) 5 none 50 none none) ∧
    ¬ List.Sorted (fun a b : Msg => a.timestamp < b.timestamp)
        (get_messages_batch (channelFetch chC1) 5 none 50 none none) := by
  refine ⟨by decide, by decide, by decide⟩

/-- Claim C1 as amended: `get_messages_batch` returns the concatenated
pages unsorted, in wire order (newest first); ascending-by-timestamp
order is established only by the sort performed by the renderer inside
`format_messages_markdown`. -/
theorem C1_amended (l : List Msg) :
    get_messages_batch (channelFetch chC1) 5 none 50 none none = chC1 ∧
    List.Sorted tsLE (format_messages_sort l) :=
  ⟨by decide, List.sorted_insertionSort tsLE l⟩

/-! ### Claim C2: upper-bound date is not enforced -/

/-- A one-message channel whose message identifier lies strictly above
`date_to_upper_snowflake "2015-01-02" = 724771536896000`. -/
def chC2 : List Msg := [⟨724771536896001, 724771536896001⟩]

/-- Claim C2 names a code bug: `get_messages_batch` computes
`before_snowflake` from `before_date` (lines 271-281) but never uses it
in the paging loop, contradicting its own docstring ("Only fetch
messages before this date").  A harvest bounded above by 2015-01-02
returns a message whose identifier exceeds the upper bound. -/
theorem C2_code_evaluation :
    date_to_upper_snowflake "2015-01-02" = some 724771536896000 ∧
    get_messages_batch (channelFetch chC2) 5 none 50 none (some "2015-01-02") = chC2 ∧
    ¬ (724771536896001 : Int) ≤ 724771536896000 := by
  refine ⟨by decide, by decide, by decide⟩

/-! ### Claim C3: fatal fetch failures never raise -/

/-- Claim C3 is false as stated: a fatal failure on the very first page
does not raise — the catch-all handler in `get_messages` (lines 232-234)
converts it into an empty page, so the harvest returns an ordinary empty
result, indistinguishable from harvesting an empty channel. -/
theorem C3_counterexample :
    get_messages_batch accessDeniedTransport 5 none 50 none none = [] ∧
    get_messages_batch accessDeniedTransport 5 none 50 none none
      = get_messages_batch (channelFetch []) 5 none 50 none none :=
  ⟨rfl, rfl⟩

/-- Claim C3 as amended: Any transport failure is swallowed by
`get_messages` into an empty page, so: a first-page fatal failure yields
an ordinary empty result (no exception propagates), and a fatal failure
on the third page of an unbounded walk yields the messages of the first
two pages as a partial result. -/
theorem C3_amended :
    (∀ (transport : Nat → Option Int → Option Int → FetchOutcome)
        (l : Nat) (b a : Option Int) (e : String),
        transport (min l 100) b a = .failure e →
        get_messages transport l b a = []) ∧
    get_messages_batch accessDeniedTransport 5 none 50 none none = [] ∧
    get_messages_batch flakyTransport 9 none 2 none none
      = [⟨10, 10⟩, ⟨9, 9⟩, ⟨8, 8⟩, ⟨7, 7⟩] := by
  refine ⟨?_, rfl, by decide⟩
  intro tr l b a e h
  simp [get_messages, h]

/-- Witness for the hypothesis of `C3_amended`: a 403 on the only
request indeed produces an empty page. -/
theorem C3_witness :
    accessDeniedTransport (min 50 100) none none = .failure "AccessDenied" ∧
    get_messages accessDeniedTransport 50 none none = [] :=
  ⟨rfl, C3_amended.1 accessDeniedTransport 50 none none "AccessDenied" rfl⟩

/-! ### Claim C6: malformed window bounds -/

/-- Claim C6 is false as stated: a malformed window bound does not
propagate an `InvalidDate` error — `_date_to_snowflake` returns `None`
and `get_messages_batch` returns an ordinary empty list, identical to
the result of harvesting an empty channel, even though the channel holds
a message. -/
theorem C6_counterexample :
    get_messages_batch (channelFetch [⟨5, 5⟩]) 5 none 50 (some "bad-date") none = [] ∧
    get_messages_batch (channelFetch [⟨5, 5⟩]) 5 none 50 (some "bad-date") none
      = get_messages_batch (channelFetch []) 5 none 50 none none :=
  ⟨by decide, by decide⟩

/-- Claim C6 as amended: The conversion signals a malformed date with a
`None` sentinel rather than an exception, and a harvest whose
`after_date` or `before_date` fails to parse returns `[]` before any
page request influences the result (the result is `[]` for EVERY
transport). -/
theorem C6_amended :
    (∀ (transport : Nat → Option Int → Option Int → FetchOutcome)
        (fuel : Nat) (tl : Option Int) (bs : Nat) (bd : Option String) (s : String),
        date_to_snowflake s = none →
        get_messages_batch transport fuel tl bs (some s) bd = []) ∧
    (∀ (transport : Nat → Option Int → Option Int → FetchOutcome)
        (fuel : Nat) (tl : Option Int) (bs : Nat) (ad : Option String) (s : String),
        date_to_upper_snowflake s = none →
        get_messages_batch transport fuel tl bs ad (some s) = []) := by
  constructor
  · intro tr fuel tl bs bd s h
    simp [get_messages_batch, h]
  · intro tr fuel tl bs ad s h
    rcases ad with _ | s2
    · simp [get_messages_batch, h]
    · rcases hds : date_to_snowflake s2 with _ | v
      · simp [get_messages_batch, hds]
      · simp [get_messages_batch, hds, h]

/-- Witness for `C6_amended` at two concrete malformed dates (an
out-of-range day and a string that is not even date-shaped). -/
theorem C6_witness :
    date_to_snowflake "2015-02-30" = none ∧
    get_messages_batch (channelFetch [⟨5, 5⟩]) 5 none 50 (some "2015-02-30") none = [] ∧
    date_to_upper_snowflake "99" = none ∧
    get_messages_batch (channelFetch [⟨5, 5⟩]) 5 none 50 none (some "99") = [] :=
  ⟨by decide, C6_amended.1 _ 5 none 50 none "2015-02-30" (by decide), by decide,
    C6_amended.2 _ 5 none 50 none "99" (by decide)⟩

/-! ### Claim C9: normalization never drops records -/

/-- A raw transport record lacking every field, including the required
`id` and `timestamp`. -/
def emptyRawMessage : RawMessage :=
  ⟨none, none, none, none, none, none, none, none⟩

/-- Claim C9 is false as stated: a record lacking required fields is NOT
dropped — the normalization loop keeps it, mapping absent fields to
`None`/defaults. -/
theorem C9_counterexample :
    processMessages "chan" [emptyRawMessage]
      = [⟨none, "", none, ⟨none, none, none, false⟩, [], [], [], none, "chan"⟩] ∧
    (processMessages "chan" [emptyRawMessage]).length = 1 :=
  ⟨rfl, rfl⟩

/-- Claim C9 as amended: The normalization loop drops nothing: it is
length-preserving and every raw record (fields present or not) appears
normalized in the output, with defaults for absent fields. -/
theorem C9_amended :
    (∀ (ch : String) (msgs : List RawMessage),
        (processMessages ch msgs).length = msgs.length) ∧
    (∀ (ch : String) (msgs : List RawMessage) (m : RawMessage), m ∈ msgs →
        processMessage ch m ∈ processMessages ch msgs) := by
  constructor
  · intro ch msgs
    simp [processMessages]
  · intro ch msgs m hm
    exact List.mem_map_of_mem (processMessage ch) hm

/-- Witness for `C9_amended` on the all-fields-absent record. -/
theorem C9_witness :
    (processMessages "chan" [emptyRawMessage]).length = 1 ∧
    processMessage "chan" emptyRawMessage ∈ processMessages "chan" [emptyRawMessage] :=
  ⟨C9_amended.1 "chan" [emptyRawMessage],
    C9_amended.2 "chan" [emptyRawMessage] emptyRawMessage (by simp)⟩

/-! ### Claim C4: lower-bound date filtering -/

/-- Claim C4: (a) For every transport, fuel, budget and batch size, when
`after_date` parses to the snowflake `bound`, every message in the
harvest result has identifier ≥ `bound`.  (b) When a fetched page
contains a message below the bound, the loop iteration returns the
accumulated messages plus exactly the prefix of the page holding at-or-above-bound
messages (truncation with early return, lines 309-320). -/
theorem C4_theorem :
    (∀ (transport : Nat → Option Int → Option Int → FetchOutcome)
        (fuel : Nat) (tl : Option Int) (bs : Nat) (ad : String)
        (bd : Option String) (bound : Int) (m : Msg),
        date_to_snowflake ad = some bound →
        m ∈ get_messages_batch transport fuel tl bs (some ad) bd →
        bound ≤ m.id) ∧
    (∀ (fetch : Nat → Option Int → Option Int → List Msg) (bound : Int)
        (tl : Option Int) (bs : Nat) (acc : List Msg) (before : Option Int)
        (cbs : Nat),
        currentBatchSize tl bs acc.length = some cbs →
        fetch cbs before (if acc.isEmpty then some bound else none) ≠ [] →
        (filterAfter bound
          (fetch cbs before (if acc.isEmpty then some bound else none))).2 = true →
        batchStep fetch (some bound) tl bs acc before
          = .done (acc ++
              (fetch cbs before (if acc.isEmpty then some bound else none)).takeWhile
                (fun m => decide (bound ≤ m.id)))) := by
  constructor
  · intro tr fuel tl bs ad bd bound m had hm
    rcases bd with _ | s
    · simp [get_messages_batch, had] at hm
      exact batchLoop_lower_bound (get_messages tr) bound tl (min bs 100) fuel
        [] none (by simp) m hm
    · rcases hdu : date_to_upper_snowflake s with _ | u
      · simp [get_messages_batch, had, hdu] at hm
      · simp [get_messages_batch, had, hdu] at hm
        exact batchLoop_lower_bound (get_messages tr) bound tl (min bs 100) fuel
          [] none (by simp) m hm
  · intro fetch bound tl bs acc before cbs hcb hne htr
    unfold batchStep
    rw [hcb]
    dsimp only
    rw [if_neg (by simpa using hne)]
    rcases hfa : filterAfter bound
        (fetch cbs before (if acc.isEmpty then some bound else none)) with ⟨kept, tr2⟩
    have htr2 : tr2 = true := by
      rw [hfa] at htr
      exact htr
    subst htr2
    have hkept : kept
        = (fetch cbs before (if acc.isEmpty then some bound else none)).takeWhile
            (fun m => decide (bound ≤ m.id)) := by
      have h1 := filterAfter_fst_eq_takeWhile bound
        (fetch cbs before (if acc.isEmpty then some bound else none))
      rw [hfa] at h1
      exact h1
    dsimp only
    rw [hkept]

/-- A channel crossing the 2015-01-02 lower bound
(`362387865600000`): two messages at or above it, one below. -/
def chC4 : List Msg :=
  [⟨362387865600010, 0⟩, ⟨362387865600005, 0⟩, ⟨362387865599997, 0⟩]

/-- A channel whose single page contains one message above and one below
the 2015-01-02 bound, used to exercise the truncation step. -/
def chC4b : List Msg := [⟨362387865600010, 0⟩, ⟨362387865599997, 0⟩]

/-- Witness for `C4_theorem` at concrete inputs. -/
theorem C4_witness :
    date_to_snowflake "2015-01-02" = some 362387865600000 ∧
    Msg.mk 362387865600010 0
      ∈ get_messages_batch (channelFetch chC4) 5 none 50 (some "2015-01-02") none ∧
    (362387865600000 : Int) ≤ (Msg.mk 362387865600010 0).id ∧
    currentBatchSize none 50 1 = some 50 ∧
    get_messages (channelFetch chC4b) 50 none none ≠ [] ∧
    (filterAfter 362387865600000 (get_messages (channelFetch chC4b) 50 none none)).2
      = true ∧
    batchStep (get_messages (channelFetch chC4b)) (some 362387865600000) none 50
        [⟨400000000000000, 0⟩] none
      = .done ([⟨400000000000000, 0⟩]
          ++ (get_messages (channelFetch chC4b) 50 none none).takeWhile
              (fun m => decide (362387865600000 ≤ m.id))) := by
  refine ⟨by decide, by decide,
    C4_theorem.1 (channelFetch chC4) 5 none 50 "2015-01-02" none 362387865600000
      (Msg.mk 362387865600010 0) (by decide) (by decide),
    by decide, by decide, by decide,
    C4_theorem.2 (get_messages (channelFetch chC4b)) 362387865600000 none 50
      [⟨400000000000000, 0⟩] none 50 (by decide) (by decide) (by decide)⟩

/-! ### Claim C5: the total-message budget bounds the result -/

/-- Claim C5: (a) For every transport honoring page limits and every
positive budget `B`, the harvest returns at most `B` messages.  (b)
Scenario: a 120-message channel with budget 50 and batch size 50 yields
exactly the 50 newest messages.  (c) Each page request is sized to
`min(batchSize, remainingBudget)`. -/
theorem C5_theorem :
    (∀ (transport : Nat → Option Int → Option Int → FetchOutcome)
        (fuel bs : Nat) (ad bd : Option String) (B : Int),
        honorsLimit transport → 0 < B →
        ((get_messages_batch transport fuel (some B) bs ad bd).length : Int) ≤ B) ∧
    get_messages_batch (channelFetch (mkChannel 120)) 5 (some 50) 50 none none
      = (mkChannel 120).take 50 ∧
    (∀ (B : Int) (bs fetched : Nat), 0 < B → (fetched : Int) < B →
        currentBatchSize (some B) bs fetched
          = some (min bs (B - (fetched : Int)).toNat)) := by
  refine ⟨?_, by decide, ?_⟩
  · intro tr fuel bs ad bd B htr hB
    have hbase : ((([] : List Msg)).length : Int) ≤ B := by simpa using hB.le
    rcases ad with _ | s
    · rcases bd with _ | s2
      · exact batchLoop_length_le _ htr none B hB (min bs 100) fuel [] none hbase
      · rcases hdu : date_to_upper_snowflake s2 with _ | u
        · simp only [get_messages_batch, hdu]
          simpa using hB.le
        · simp only [get_messages_batch, hdu, Option.map_some']
          exact batchLoop_length_le _ htr none B hB (min bs 100) fuel [] none hbase
    · rcases hds : date_to_snowflake s with _ | v
      · simp only [get_messages_batch, hds]
        simpa using hB.le
      · rcases bd with _ | s2
        · simp only [get_messages_batch, hds, Option.map_some']
          exact batchLoop_length_le _ htr (some v) B hB (min bs 100) fuel [] none hbase
        · rcases hdu : date_to_upper_snowflake s2 with _ | u
          · simp only [get_messages_batch, hds, hdu, Option.map_some']
            simpa using hB.le
          · simp only [get_messages_batch, hds, hdu, Option.map_some']
            exact batchLoop_length_le _ htr (some v) B hB (min bs 100) fuel [] none hbase
  · intro B bs fetched hB hf
    simp only [currentBatchSize, if_pos hB]
    rw [if_neg (by omega)]

/-- Witness for `C5_theorem` on the 120-message channel with budget
50. -/
theorem C5_witness :
    honorsLimit (channelFetch (mkChannel 120)) ∧
    (0 : Int) < 50 ∧
    ((get_messages_batch (channelFetch (mkChannel 120)) 5 (some 50) 50
        none none).length : Int) ≤ 50 ∧
    currentBatchSize (some 50) 50 0 = some 50 := by
  refine ⟨channelFetch_honorsLimit _, by norm_num,
    C5_theorem.1 (channelFetch (mkChannel 120)) 5 50 none none 50
      (channelFetch_honorsLimit _) (by norm_num),
    by simpa using C5_theorem.2.2 50 50 0 (by norm_num) (by norm_num)⟩

/-! ### Claim C10: zero or negative budget means unbounded -/

/-- Claim C10: the Python test `if total_limit and total_limit > 0` skips the
budget check for a zero or negative `total_limit`: such a harvest
behaves exactly like an unbudgeted one. -/
theorem C10_theorem (transport : Nat → Option Int → Option Int → FetchOutcome)
    (fuel bs : Nat) (ad bd : Option String) (t : Int) (ht : t ≤ 0) :
    get_messages_batch transport fuel (some t) bs ad bd
      = get_messages_batch transport fuel none bs ad bd := by
  rcases ad with _ | s
  · rcases bd with _ | s2
    · exact batchLoop_budget_nonpos _ none (min bs 100) t ht fuel [] none
    · rcases hdu : date_to_upper_snowflake s2 with _ | u
      · simp [get_messages_batch, hdu]
      · simp only [get_messages_batch]
        simp [hdu]
        exact batchLoop_budget_nonpos _ none (min bs 100) t ht fuel [] none
  · rcases hds : date_to_snowflake s with _ | v
    · simp [get_messages_batch, hds]
    · rcases bd with _ | s2
      · simp only [get_messages_batch]
        simp [hds]
        exact batchLoop_budget_nonpos _ (some v) (min bs 100) t ht fuel [] none
      · rcases hdu : date_to_upper_snowflake s2 with _ | u
        · simp [get_messages_batch, hds, hdu]
        · simp only [get_messages_batch]
          simp [hds, hdu]
          exact batchLoop_budget_nonpos _ (some v) (min bs 100) t ht fuel [] none

/-- Witness for `C10_theorem`: budget 0 and budget -5 on a seven-message
channel return all seven messages, exactly as with no budget. -/
theorem C10_witness :
    get_messages_batch (channelFetch (mkChannel 7)) 9 (some 0) 3 none none
      = get_messages_batch (channelFetch (mkChannel 7)) 9 none 3 none none ∧
    get_messages_batch (channelFetch (mkChannel 7)) 9 (some (-5)) 3 none none
      = get_messages_batch (channelFetch (mkChannel 7)) 9 none 3 none none ∧
    get_messages_batch (channelFetch (mkChannel 7)) 9 (some 0) 3 none none
      = mkChannel 7 :=
  ⟨C10_theorem (channelFetch (mkChannel 7)) 9 3 none none 0 (by norm_num),
    C10_theorem (channelFetch (mkChannel 7)) 9 3 none none (-5) (by norm_num),
    by decide⟩
